import Mathlib

/-!
Verification model of the buzz-backend ingestion/classification pipeline.

Shallow embedding of:
- app/scraper/scheduler.py (TwitterScraper: checkpointed window scraping),
- app/db/repository.py (raw-post persistence, classification, workflow),
- app/db/models.py (Post.compute_priority, from_classification_result),
- app/analyzer/linkedin_batch.py (classify_from_database).

Timestamps are modelled as integers (minutes), database tables as lists,
and external calls (Twitter search, conversation fetch, LLM classifier)
as explicit oracles supplied per run.
-/

namespace Buzz

/-! ## Checkpoint state (app/db/models.py ScraperState, app/scraper/scheduler.py) -/

/-- One row of the scraper_state table (models.ScraperState). -/
structure ScraperStateRow where
  last_window_start : Int
  last_window_end : Int
  run_count : Nat
  deriving Repr, DecidableEq

/-- Scraper configuration (scheduler.py: SCRAPER_WINDOW_MINUTES, SCRAPER_START_DATE). -/
structure SchedulerConfig where
  window_minutes : Int
  scraper_start_date : Int
  deriving Repr, DecidableEq

/-- TwitterScraper.get_start_time: last_window_end of the checkpoint row if one
exists, else the configured epoch start. -/
def get_start_time (cfg : SchedulerConfig) (state : Option ScraperStateRow) : Int :=
  match state with
  | some s => s.last_window_end
  | none => cfg.scraper_start_date

/-- TwitterScraper.update_scraper_state: upsert the checkpoint row and bump run_count. -/
def update_scraper_state (state : Option ScraperStateRow) (window_start window_end : Int) :
    ScraperStateRow :=
  match state with
  | some s =>
    { last_window_start := window_start, last_window_end := window_end,
      run_count := s.run_count + 1 }
  | none =>
    { last_window_start := window_start, last_window_end := window_end, run_count := 1 }

/-- Window computation in TwitterScraper.run_once: window_end = start + window
minutes, clamped to now. -/
def computeWindow (cfg : SchedulerConfig) (state : Option ScraperStateRow) (now : Int) :
    Int × Int :=
  let window_start := get_start_time cfg state
  let window_end0 := window_start + cfg.window_minutes
  (window_start, if window_end0 > now then now else window_end0)

/-! ## Conversations (scheduler.py scrape_window / save_conversation) -/

/-- A tweet as far as scrape_window inspects it: its conversation_id field. -/
structure Tweet where
  conversation_id : Option String
  deriving Repr, DecidableEq

/-- Parsed conversation payload returned by TwitterSearchAPI.get_conversation_parsed:
the top-level conversation_id and the main tweet's conversation_id, which
save_conversation consults as a fallback. -/
structure ConversationData where
  conversation_id : Option String
  main_tweet_conversation_id : Option String
  deriving Repr, DecidableEq

/-- Python `a or b` on optional strings (None and the empty string are falsy). -/
def pyOrStrOpt (a b : Option String) : Option String :=
  match a with
  | some s => if s = "" then b else some s
  | none => b

/-- The conversation id save_conversation extracts from a payload. -/
def conv_id_of (cd : ConversationData) : Option String :=
  pyOrStrOpt cd.conversation_id cd.main_tweet_conversation_id

/-- TwitterScraper.conversation_exists: existence check by conversation_id. -/
def conversation_exists (db : List String) (cid : String) : Bool :=
  db.contains cid

/-- TwitterScraper.save_conversation: extract the id, skip when falsy or already
stored, else append.  Returns the saved id (None when skipped) and the new table. -/
def save_conversation (db : List String) (cd : ConversationData) :
    Option String × List String :=
  match conv_id_of cd with
  | none => (none, db)
  | some cid =>
    if cid = "" then (none, db)
    else if conversation_exists db cid then (none, db)
    else (some cid, db ++ [cid])

/-- Run statistics of scrape_window. -/
structure ScrapeStats where
  tweets_found : Nat
  conversations_saved : Nat
  duplicates_skipped : Nat
  errors : Nat
  deriving Repr, DecidableEq

/-- Result of processing the conversation ids of one window: final stats, the
conversations table, and the log of get_conversation_parsed invocations. -/
structure ConvProcResult where
  stats : ScrapeStats
  db : List String
  log : List String
  deriving Repr, DecidableEq

/-- The truthy conversation_id of a tweet (scrape_window: `if conv_id:`). -/
def tweetConvId (t : Tweet) : Option String :=
  match t.conversation_id with
  | some c => if c = "" then none else some c
  | none => none

/-- First-occurrence deduplication, modelling the `set()` of conversation ids
built in scrape_window. -/
def dedupFirstAux : List String → List String → List String
  | [], _ => []
  | x :: xs, seen =>
    if seen.contains x then dedupFirstAux xs seen else x :: dedupFirstAux xs (x :: seen)

/-- The unique conversation ids of a list of tweets (scrape_window lines 222-227). -/
def extractConvIds (tweets : List Tweet) : List String :=
  dedupFirstAux (tweets.filterMap tweetConvId) []

/-- The per-conversation loop of scrape_window: existence check before the
detail fetch; a fetch exception is counted in errors and processing continues;
a successful fetch is logged and the payload saved with a second idempotency
check inside save_conversation. -/
def processConversations (convFetch : String → Except String ConversationData) :
    List String → List String → ScrapeStats → List String → ConvProcResult
  | [], db, stats, log => ⟨stats, db, log⟩
  | cid :: rest, db, stats, log =>
    if conversation_exists db cid then
      processConversations convFetch rest db
        { stats with duplicates_skipped := stats.duplicates_skipped + 1 } log
    else
      match convFetch cid with
      | .error _ =>
        processConversations convFetch rest db
          { stats with errors := stats.errors + 1 } (log ++ [cid])
      | .ok cd =>
        match save_conversation db cd with
        | (some _, db2) =>
          processConversations convFetch rest db2
            { stats with conversations_saved := stats.conversations_saved + 1 }
            (log ++ [cid])
        | (none, db2) =>
          processConversations convFetch rest db2
            { stats with duplicates_skipped := stats.duplicates_skipped + 1 }
            (log ++ [cid])

/-- The external world of one run: the clock and the two Twitter API calls made
by scrape_window (the window-level search and the per-conversation detail fetch). -/
structure RunEnv where
  now : Int
  fetch : Except String (List Tweet)
  convFetch : String → Except String ConversationData

/-- TwitterScraper.scrape_window: an adapter-level exception during the window
search propagates; otherwise the unique conversation ids are processed. -/
def scrape_window (env : RunEnv) (db : List String) : Except String ConvProcResult :=
  match env.fetch with
  | .error e => .error e
  | .ok tweets =>
    .ok (processConversations env.convFetch (extractConvIds tweets) db
      { tweets_found := tweets.length, conversations_saved := 0,
        duplicates_skipped := 0, errors := 0 } [])

/-- Outcome of run_once. -/
inductive RunResult where
  | skipped
  | failed (e : String)
  | ok (stats : ScrapeStats)
  deriving Repr, DecidableEq

/-- Full effect of one run_once call. -/
structure RunOutcome where
  result : RunResult
  state : Option ScraperStateRow
  db : List String
  log : List String
  deriving Repr, DecidableEq

/-- TwitterScraper.run_once: compute the clamped window; when start >= end return
without touching anything; otherwise scrape the window and, only on success,
update the checkpoint to the processed window. -/
def run_once (cfg : SchedulerConfig) (env : RunEnv) (state : Option ScraperStateRow)
    (db : List String) : RunOutcome :=
  let w := computeWindow cfg state env.now
  if w.1 ≥ w.2 then ⟨.skipped, state, db, []⟩
  else
    match scrape_window env db with
    | .error e => ⟨.failed e, state, db, []⟩
    | .ok r => ⟨.ok r.stats, some (update_scraper_state state w.1 w.2), r.db, r.log⟩

/-- Persistent scheduler state threaded between runs: checkpoint row and the
conversations table. -/
structure SchedState where
  checkpoint : Option ScraperStateRow
  convDb : List String
  deriving Repr, DecidableEq

/-- One scheduler iteration on the persistent state. -/
def runStep (cfg : SchedulerConfig) (st : SchedState) (env : RunEnv) :
    SchedState × RunResult × List String :=
  let o := run_once cfg env st.checkpoint st.convDb
  (⟨o.state, o.db⟩, o.result, o.log)

/-- The state after a sequence of runs. -/
def runMany (cfg : SchedulerConfig) : List RunEnv → SchedState → SchedState
  | [], st => st
  | e :: es, st => runMany cfg es (runStep cfg st e).1

/-- The concatenated get_conversation_parsed invocation log of a sequence of runs. -/
def runLogs (cfg : SchedulerConfig) : List RunEnv → SchedState → List String
  | [], _ => []
  | e :: es, st => (runStep cfg st e).2.2 ++ runLogs cfg es (runStep cfg st e).1

/-- All intermediate states of a sequence of runs, starting one included. -/
def traceStates (cfg : SchedulerConfig) : List RunEnv → SchedState → List SchedState
  | [], st => [st]
  | e :: es, st => st :: traceStates cfg es (runStep cfg st e).1

/-- Order on optional checkpoints by last_window_end (no row is below every row). -/
def checkpointEndLE : Option ScraperStateRow → Option ScraperStateRow → Prop
  | none, _ => True
  | some _, none => False
  | some a, some b => a.last_window_end ≤ b.last_window_end

/-! ## TwitterSearchAPI surface (app/scraper/twitter.py) -/

/-- The methods defined on the TwitterSearchAPI class in app/scraper/twitter.py. -/
def twitterSearchAPI_methods : List String :=
  ["__init__", "_build_headers", "_build_query", "parse_datetime", "search",
   "search_all", "get_conversation", "get_conversation_parsed",
   "parse_conversation_response", "parse_response", "_extract_tweet_data"]

/-- The adapter method scrape_window invokes for the window-level search
(scheduler.py line 210). -/
def scheduler_fetch_method : String := "fetch_all"

/-! ## Raw-post persistence (app/db/repository.py) -/

/-- Input post data as save_raw_post(s_batch) reads it: the id field and the urn
fallback. -/
structure InPost where
  id : Option String
  urn : Option String
  deriving Repr, DecidableEq

/-- The last `:`-separated segment of a urn string. -/
def urn_last_segment (urn : String) : String :=
  (urn.splitOn ":").getLastD ""

/-- Natural-key extraction: post_data.get("id") or post_data.get("urn", "").split(":")[-1]. -/
def extract_post_id (p : InPost) : String :=
  match p.id with
  | some s => if s = "" then urn_last_segment (p.urn.getD "") else s
  | none => urn_last_segment (p.urn.getD "")

/-- The raw_post table, reduced to its unique natural keys (platform, post_id). -/
abbrev RawPostDb := List (String × String)

/-- repository.save_raw_post: skip when the key exists, insert for a known
platform, raise ValueError otherwise. -/
def save_raw_post (p : InPost) (platform : String) (db : RawPostDb) :
    Except String (Option (String × String) × RawPostDb) :=
  let post_id := extract_post_id p
  if db.contains (platform, post_id) then .ok (none, db)
  else if platform = "linkedin" then
    .ok (some (platform, post_id), db ++ [(platform, post_id)])
  else if platform = "twitter" then
    .ok (some (platform, post_id), db ++ [(platform, post_id)])
  else .error ("Unknown platform: " ++ platform)

/-- Counts returned by save_raw_posts_batch. -/
structure BatchResult where
  saved : Nat
  skipped : Nat
  deriving Repr, DecidableEq

/-- Accumulator of the save_raw_posts_batch loop: rows pending insertion plus counts. -/
structure BatchLoopOut where
  pending : List (String × String)
  saved : Nat
  skipped : Nat
  deriving Repr, DecidableEq

/-- The loop body of save_raw_posts_batch.  The session is created with
autoflush=False (database.py line 34), so the existence query sees only the
committed table, never the rows added earlier in the same batch; an unknown
platform falls through the if/elif with a bare continue. -/
def batchLoop (platform : String) (db : RawPostDb) :
    List InPost → List (String × String) → Nat → Nat → BatchLoopOut
  | [], pending, saved, skipped => ⟨pending, saved, skipped⟩
  | p :: rest, pending, saved, skipped =>
    let post_id := extract_post_id p
    if db.contains (platform, post_id) then
      batchLoop platform db rest pending saved (skipped + 1)
    else if platform = "linkedin" ∨ platform = "twitter" then
      batchLoop platform db rest (pending ++ [(platform, post_id)]) (saved + 1) skipped
    else
      batchLoop platform db rest pending saved skipped

/-- repository.save_raw_posts_batch: run the loop, then commit.  The commit
succeeds only when the unique index ix_raw_post_platform_post_id on
(platform, post_id) is not violated; otherwise the session rolls back and the
IntegrityError propagates (database.get_db_session). -/
def save_raw_posts_batch (posts : List InPost) (platform : String) (db : RawPostDb) :
    Except String (BatchResult × RawPostDb) :=
  let out := batchLoop platform db posts [] 0 0
  if (db ++ out.pending).Nodup then
    .ok (⟨out.saved, out.skipped⟩, db ++ out.pending)
  else .error "IntegrityError: UNIQUE constraint failed: raw_post.platform, raw_post.post_id"

/-! ## Priority (app/db/models.py Post.compute_priority) -/

/-- Python truthiness test on a nullable integer column (None and 0 are falsy). -/
def pyFalsyOptInt : Option Int → Bool
  | none => true
  | some n => n == 0

/-- Post.compute_priority: medium when either score is falsy, otherwise derived
from the float mean of the two scores (modelled exactly over ℚ). -/
def compute_priority (urgency_score impact_score : Option Int) : String :=
  if pyFalsyOptInt urgency_score || pyFalsyOptInt impact_score then "medium"
  else
    let combined : ℚ := (((urgency_score.getD 0 : Int) : ℚ) + ((impact_score.getD 0 : Int) : ℚ)) / 2
    if combined ≥ 8 then "critical"
    else if combined ≥ 6 then "high"
    else if combined ≥ 4 then "medium"
    else "low"

/-- The spec's priority formula, written from its words: combined is the mean of
the two scores, with medium whenever either score is missing. -/
def priority_spec (urgency_score impact_score : Option Int) : String :=
  match urgency_score, impact_score with
  | some u, some i =>
    let combined : ℚ := (((u : Int) : ℚ) + ((i : Int) : ℚ)) / 2
    if combined ≥ 8 then "critical"
    else if combined ≥ 6 then "high"
    else if combined ≥ 4 then "medium"
    else "low"
  | _, _ => "medium"

/-! ## Classified posts and workflow (app/db/models.py Post, app/db/repository.py) -/

/-- A row of the posts table, with the columns the claims touch. -/
structure PostRow where
  id : Nat
  raw_post_id : Nat
  is_spam : Bool
  category : Option String
  sentiment_score : Option Int
  urgency_score : Option Int
  impact_score : Option Int
  priority : String
  status : String
  raised_on_slack : Bool
  slack_channel : Option String
  ticket_created : Bool
  ticket_id : Option String
  assigned_team : Option String
  assigned_to : Option String
  resolution : Option String
  internal_notes : Option String
  deriving Repr, DecidableEq

/-- Classifier output fields consumed by Post.from_classification_result. -/
structure Classification where
  is_spam : Bool
  category : Option String
  sentiment_score : Option Int
  urgency_score : Option Int
  impact_score : Option Int
  deriving Repr, DecidableEq

/-- Post.from_classification_result: build the row with the column defaults
(status "new", workflow flags cleared) and compute priority once from the scores. -/
def from_classification_result (post_pk raw_post_id : Nat) (c : Classification) : PostRow :=
  { id := post_pk
    raw_post_id := raw_post_id
    is_spam := c.is_spam
    category := c.category
    sentiment_score := c.sentiment_score
    urgency_score := c.urgency_score
    impact_score := c.impact_score
    priority := compute_priority c.urgency_score c.impact_score
    status := "new"
    raised_on_slack := false
    slack_channel := none
    ticket_created := false
    ticket_id := none
    assigned_team := none
    assigned_to := none
    resolution := none
    internal_notes := none }

/-- Row mutation of repository.mark_raised_on_slack: status advances from new to
acknowledged, otherwise stays. -/
def raise_row (channel : String) (p : PostRow) : PostRow :=
  { p with
    raised_on_slack := true,
    slack_channel := some channel,
    status := if p.status = "new" then "acknowledged" else p.status }

/-- Row mutation of repository.create_ticket: status advances to in_progress from
new or acknowledged, otherwise stays. -/
def ticket_row (ticket_id : String) (p : PostRow) : PostRow :=
  { p with
    ticket_created := true,
    ticket_id := some ticket_id,
    status := if p.status = "new" ∨ p.status = "acknowledged" then "in_progress" else p.status }

/-- Row mutation of repository.assign_post_to_team: same status rule as
create_ticket. -/
def assign_row (team : String) (assignee : Option String) (p : PostRow) : PostRow :=
  { p with
    assigned_team := some team,
    assigned_to := assignee,
    status := if p.status = "new" ∨ p.status = "acknowledged" then "in_progress" else p.status }

/-- Row mutation of repository.resolve_post: status set to resolved unconditionally. -/
def resolve_row (resolution : String) (p : PostRow) : PostRow :=
  { p with status := "resolved", resolution := some resolution }

/-- Row mutation of repository.add_internal_note: notes appended, status untouched
(the timestamp written by the source is irrelevant to the claims and omitted). -/
def note_row (note : String) (p : PostRow) : PostRow :=
  { p with
    internal_notes :=
      some (match p.internal_notes with
            | some s => s ++ " " ++ note
            | none => note) }

/-- The named workflow transitions of the repository. -/
inductive WorkflowOp where
  | raiseOnSlack (channel : String)
  | createTicket (ticket_id : String)
  | assignTeam (team : String) (assignee : Option String)
  | resolvePost (resolution : String)
  | addNote (note : String)
  deriving Repr

/-- Dispatch a workflow transition to its row mutation. -/
def applyRowOp : WorkflowOp → PostRow → PostRow
  | .raiseOnSlack channel => raise_row channel
  | .createTicket tid => ticket_row tid
  | .assignTeam team assignee => assign_row team assignee
  | .resolvePost resolution => resolve_row resolution
  | .addNote note => note_row note

/-- Rank of a workflow status in the forward order new, acknowledged, in_progress,
resolved, closed. -/
def statusRank (s : String) : Nat :=
  if s = "new" then 0
  else if s = "acknowledged" then 1
  else if s = "in_progress" then 2
  else if s = "resolved" then 3
  else if s = "closed" then 4
  else 0

/-- Statuses reachable from the column default "new" through the repository's
workflow transitions (none of them ever writes "closed"). -/
def reachableStatus (s : String) : Prop :=
  s = "new" ∨ s = "acknowledged" ∨ s = "in_progress" ∨ s = "resolved"

/-- Update the first post with the given id (the repository functions query by
Post.id and mutate the row found). -/
def updateFirstPost (posts : List PostRow) (post_id : Nat) (f : PostRow → PostRow) :
    List PostRow :=
  match posts with
  | [] => []
  | p :: rest => if p.id = post_id then f p :: rest else p :: updateFirstPost rest post_id f

/-- repository.mark_raised_on_slack on the posts table. -/
def mark_raised_on_slack (posts : List PostRow) (post_id : Nat) (channel : String) :
    List PostRow :=
  updateFirstPost posts post_id (raise_row channel)

/-- repository.create_ticket on the posts table. -/
def create_ticket (posts : List PostRow) (post_id : Nat) (ticket_id : String) :
    List PostRow :=
  updateFirstPost posts post_id (ticket_row ticket_id)

/-- repository.assign_post_to_team on the posts table. -/
def assign_post_to_team (posts : List PostRow) (post_id : Nat) (team : String)
    (assignee : Option String) : List PostRow :=
  updateFirstPost posts post_id (assign_row team assignee)

/-- repository.resolve_post on the posts table. -/
def resolve_post (posts : List PostRow) (post_id : Nat) (resolution : String) :
    List PostRow :=
  updateFirstPost posts post_id (resolve_row resolution)

/-- repository.add_internal_note on the posts table. -/
def add_internal_note (posts : List PostRow) (post_id : Nat) (note : String) :
    List PostRow :=
  updateFirstPost posts post_id (note_row note)

/-! ## Classification pipeline as a transition system
(app/analyzer/linkedin_batch.py classify_from_database, app/db/repository.py) -/

/-- A row of the raw_post table as the classification pipeline sees it. -/
structure RawRow where
  id : Nat
  full_text : String
  is_classified : Bool
  deriving Repr, DecidableEq

/-- Durable state: the raw_post table (ordered as the scraped_at descending query
returns it, newest first), the posts table, and the autoincrement counters. -/
structure SystemState where
  raws : List RawRow
  posts : List PostRow
  nextRawId : Nat
  nextPostId : Nat
  deriving Repr, DecidableEq

/-- repository.get_unclassified_posts: the unclassified rows, limited. -/
def get_unclassified_posts (s : SystemState) (limit : Nat) : List RawRow :=
  (s.raws.filter (fun r => !r.is_classified)).take limit

/-- repository.save_classification: append the classified post built by
from_classification_result and mark the raw post (when present) classified, in
one transaction. -/
def save_classification (s : SystemState) (raw_post_id : Nat) (c : Classification) :
    SystemState :=
  { s with
    posts := s.posts ++ [from_classification_result s.nextPostId raw_post_id c],
    raws := s.raws.map (fun r =>
      if r.id = raw_post_id then { r with is_classified := true } else r),
    nextPostId := s.nextPostId + 1 }

/-- The per-post loop of classify_from_database: a successful classifier call is
persisted via save_classification; a failed one only records an error. -/
def processClassifyBatch (oracle : Nat → Option Classification) :
    List Nat → SystemState → SystemState
  | [], s => s
  | id :: rest, s =>
    match oracle id with
    | some c => processClassifyBatch oracle rest (save_classification s id c)
    | none => processClassifyBatch oracle rest s

/-- linkedin_batch.classify_from_database: query the unclassified posts once,
then classify each in turn. -/
def classify_from_database (oracle : Nat → Option Classification) (max_posts : Nat)
    (s : SystemState) : SystemState :=
  processClassifyBatch oracle ((get_unclassified_posts s max_posts).map (·.id)) s

/-- The operations that mutate the durable state: ingesting a new raw post
(save_raw_post with a fresh autoincrement id, is_classified defaulting to
false), a classification run, and the workflow transitions. -/
inductive SysOp where
  | ingest (full_text : String)
  | classifyRun (oracle : Nat → Option Classification) (max_posts : Nat)
  | workflow (post_id : Nat) (op : WorkflowOp)

/-- Apply one operation. -/
def applySysOp (s : SystemState) : SysOp → SystemState
  | .ingest t =>
    { s with raws := { id := s.nextRawId, full_text := t, is_classified := false } :: s.raws,
             nextRawId := s.nextRawId + 1 }
  | .classifyRun oracle m => classify_from_database oracle m s
  | .workflow pid op => { s with posts := updateFirstPost s.posts pid (applyRowOp op) }

/-- Apply a sequence of operations. -/
def applySysOps (s : SystemState) : List SysOp → SystemState
  | [] => s
  | op :: ops => applySysOps (applySysOp s op) ops

/-- The empty database. -/
def initState : SystemState := { raws := [], posts := [], nextRawId := 1, nextPostId := 1 }

/-- Number of classified-post rows referencing a raw post. -/
def postCountFor (s : SystemState) (id : Nat) : Nat :=
  s.posts.countP (fun p => p.raw_post_id = id)

/-- Whether the raw post with the given id exists and is marked classified. -/
def rawClassifiedB (s : SystemState) (id : Nat) : Bool :=
  s.raws.any (fun r => r.id = id && r.is_classified)

/-- Mark a raw post classified (the single-field mutation save_classification
performs on the raw row). -/
def setClassified (r : RawRow) : RawRow := { r with is_classified := true }

/-- Well-formedness of the durable state: raw ids are unique and below the
autoincrement counter, and every raw post has exactly one classified post when
its flag is set and none otherwise. -/
def sysWF (s : SystemState) : Prop :=
  (s.raws.map (fun r => r.id)).Nodup
  ∧ (∀ r ∈ s.raws, r.id < s.nextRawId)
  ∧ (∀ id, postCountFor s id = if rawClassifiedB s id then 1 else 0)

/-- A concrete classified post in status "closed", for concrete evaluations. -/
def samplePostClosed : PostRow :=
  { id := 1, raw_post_id := 1, is_spam := false, category := some "Complaint",
    sentiment_score := some 2, urgency_score := some 9, impact_score := some 8,
    priority := "critical", status := "closed", raised_on_slack := false,
    slack_channel := none, ticket_created := false, ticket_id := none,
    assigned_team := none, assigned_to := none, resolution := none,
    internal_notes := none }

/-- A concrete classified post in the default status "new", for concrete
evaluations. -/
def samplePostNew : PostRow :=
  { samplePostClosed with status := "new" }

/-! ## Theorems -/

lemma compute_priority_eq_spec (u i : Option Int)
    (hu : ∀ x, u = some x → 1 ≤ x ∧ x ≤ 10)
    (hi : ∀ x, i = some x → 1 ≤ x ∧ x ≤ 10) :
    compute_priority u i = priority_spec u i := by
  cases u with
  | none => cases i <;> rfl
  | some a =>
    cases i with
    | none => simp [compute_priority, priority_spec, pyFalsyOptInt]
    | some b =>
      have ha : 1 ≤ a := (hu a rfl).1
      have hb : 1 ≤ b := (hi b rfl).1
      have ha0 : (a == 0) = false := by rw [beq_eq_false_iff_ne]; omega
      have hb0 : (b == 0) = false := by rw [beq_eq_false_iff_ne]; omega
      simp [compute_priority, priority_spec, pyFalsyOptInt, ha0, hb0]

/-- Claim C5: compute_priority agrees with the spec formula (combined mean of the
two scores with thresholds 8/6/4, medium when either score is missing) on the
documented 1..10 score range; the three spec examples evaluate as stated;
priority is computed exactly once, by from_classification_result, and no
workflow transition mutates it. -/
theorem C5_priority_derivation :
    (∀ u i : Option Int,
        (∀ x, u = some x → 1 ≤ x ∧ x ≤ 10) →
        (∀ x, i = some x → 1 ≤ x ∧ x ≤ 10) →
        compute_priority u i = priority_spec u i)
    ∧ compute_priority (some 9) (some 8) = "critical"
    ∧ compute_priority (some 5) (some 5) = "medium"
    ∧ compute_priority none (some 7) = "medium"
    ∧ (∀ post_pk raw_post_id c,
        (from_classification_result post_pk raw_post_id c).priority =
          compute_priority c.urgency_score c.impact_score)
    ∧ (∀ op p, (applyRowOp op p).priority = p.priority) := by
  refine ⟨compute_priority_eq_spec,
    by norm_num [compute_priority, pyFalsyOptInt],
    by norm_num [compute_priority, pyFalsyOptInt],
    by norm_num [compute_priority, pyFalsyOptInt],
    fun _ _ _ => rfl, ?_⟩
  intro op p
  cases op <;> rfl

/-- Witness for C5 at the concrete scores urgency=9, impact=8. -/
theorem C5_priority_derivation_witness :
    compute_priority (some 9) (some 8) = priority_spec (some 9) (some 8) :=
  C5_priority_derivation.1 (some 9) (some 8)
    (fun x hx => by cases hx; decide)
    (fun x hx => by cases hx; decide)

/-- Claim C9: the scheduler's Fetch step invokes self.api.fetch_all, but the
TwitterSearchAPI adapter defines no such method (its paginated search is
search_all), so the claimed bounded pagination never runs — the call raises
AttributeError before any search request. -/
theorem C9_fetch_method_missing :
    scheduler_fetch_method ∉ twitterSearchAPI_methods ∧
    "search_all" ∈ twitterSearchAPI_methods := by decide

/-- Claim C4: a batch containing two posts with the same (platform, post_id)
key, neither previously stored, is NOT saved as one row with saved=1/skipped=1:
the in-loop existence check sees only the committed table (autoflush=False), so
both rows are added as pending and the commit fails the unique index — the
batch raises IntegrityError and persists nothing. -/
theorem C4_duplicate_batch_fails :
    save_raw_posts_batch [⟨some "1", none⟩, ⟨some "1", none⟩] "twitter" [] =
      Except.error
        "IntegrityError: UNIQUE constraint failed: raw_post.platform, raw_post.post_id"
    ∧ batchLoop "twitter" [] [⟨some "1", none⟩, ⟨some "1", none⟩] [] 0 0 =
      ⟨[("twitter", "1"), ("twitter", "1")], 2, 0⟩ := by
  constructor <;> rfl

lemma batchLoop_unknown_platform (platform : String) (db : RawPostDb)
    (h1 : platform ≠ "linkedin") (h2 : platform ≠ "twitter") (posts : List InPost) :
    ∀ (pending : List (String × String)) (saved skipped : Nat),
      batchLoop platform db posts pending saved skipped =
        ⟨pending, saved,
          skipped + posts.countP (fun p => db.contains (platform, extract_post_id p))⟩ := by
  induction posts with
  | nil => intro pending saved skipped; simp [batchLoop]
  | cons p rest ih =>
    intro pending saved skipped
    by_cases hc : db.contains (platform, extract_post_id p) = true
    · rw [batchLoop]
      rw [if_pos hc, ih, List.countP_cons]
      have hm : (platform, extract_post_id p) ∈ db := by simpa using hc
      refine congrArg (BatchLoopOut.mk pending saved) ?_
      simp [hm]
      omega
    · rw [batchLoop]
      rw [if_neg hc, if_neg (by simp [h1, h2]), ih, List.countP_cons]
      have hm : (platform, extract_post_id p) ∉ db := by simpa using hc
      refine congrArg (BatchLoopOut.mk pending saved) ?_
      simp [hm]

/-- Claim C10: save_raw_posts_batch silently drops every not-yet-stored post when
the platform argument is neither twitter nor linkedin — nothing is persisted and
neither count includes it, so saved + skipped can be strictly less than the
input size — while save_raw_post raises ValueError for the same platform. -/
theorem C10_batch_drops_unknown_platform (posts : List InPost) (platform : String)
    (db : RawPostDb) (hdb : db.Nodup)
    (h1 : platform ≠ "linkedin") (h2 : platform ≠ "twitter") :
    save_raw_posts_batch posts platform db =
      Except.ok (⟨0, posts.countP (fun p => db.contains (platform, extract_post_id p))⟩, db)
    ∧ ((∃ p ∈ posts, db.contains (platform, extract_post_id p) = false) →
        0 + posts.countP (fun p => db.contains (platform, extract_post_id p)) < posts.length)
    ∧ ∀ p : InPost, db.contains (platform, extract_post_id p) = false →
        save_raw_post p platform db = Except.error ("Unknown platform: " ++ platform) := by
  refine ⟨?_, ?_, ?_⟩
  · rw [save_raw_posts_batch, batchLoop_unknown_platform platform db h1 h2]
    simp [hdb]
  · rintro ⟨p, hp, hcp⟩
    have hle := List.countP_le_length
      (p := fun p => db.contains (platform, extract_post_id p)) (l := posts)
    have hne : posts.countP (fun p => db.contains (platform, extract_post_id p)) ≠
        posts.length := by
      intro he
      have := List.countP_eq_length.mp he p hp
      rw [hcp] at this
      exact Bool.false_ne_true this
    omega
  · intro p hp
    have hm : (platform, extract_post_id p) ∉ db := by simpa using hp
    simp [save_raw_post, hm, h1, h2]

/-- Witness for C10: one new post on platform "facebook" — returned counts are
saved=0, skipped=0 (strictly fewer than the 1 input post), nothing persisted,
and the single-row save raises instead. -/
theorem C10_batch_drops_unknown_platform_witness :
    save_raw_posts_batch [⟨some "9", none⟩] "facebook" [] = Except.ok (⟨0, 0⟩, [])
    ∧ (0 : Nat) + 0 < 1
    ∧ save_raw_post ⟨some "9", none⟩ "facebook" [] =
        Except.error "Unknown platform: facebook" := by
  have h := C10_batch_drops_unknown_platform [⟨some "9", none⟩] "facebook" []
    (by simp) (by decide) (by decide)
  refine ⟨h.1, by decide, h.2.2 ⟨some "9", none⟩ (by decide)⟩

lemma reachable_step (op : WorkflowOp) (p : PostRow) (h : reachableStatus p.status) :
    reachableStatus (applyRowOp op p).status ∧
      statusRank p.status ≤ statusRank (applyRowOp op p).status := by
  rcases h with h | h | h | h <;> cases op <;>
    simp [applyRowOp, raise_row, ticket_row, assign_row, resolve_row, note_row,
      reachableStatus, statusRank, h]

/-- Claim C8 counterexample: the claim fails as stated — resolve_post applied to
a post whose status is "closed" moves the status back to "resolved", an earlier
rank in the documented order. -/
theorem C8_counterexample_resolve_after_closed :
    (resolve_post [samplePostClosed] 1 "done").map (fun p => p.status) = ["resolved"]
    ∧ statusRank "resolved" < statusRank "closed" := by decide

/-- Claim C8 (amended): along every sequence of workflow transitions applied to a
post starting from the default status "new", the status rank never decreases
(in particular "closed" is never produced, and resolve after assign or assign
after resolve cannot regress); only a post already in the externally-settable
status "closed" can be regressed, by resolve_post. -/
theorem C8_status_monotone_from_new (ops : List WorkflowOp) (p : PostRow)
    (h : p.status = "new") :
    List.Chain' (fun a b => statusRank a ≤ statusRank b)
      ((List.scanl (fun q op => applyRowOp op q) p ops).map (fun q => q.status)) := by
  have hr : reachableStatus p.status := Or.inl h
  clear h
  induction ops generalizing p with
  | nil => simp
  | cons op rest ih =>
    rw [List.scanl_cons, List.singleton_append, List.map_cons, List.chain'_cons']
    constructor
    · intro b hb
      have hh : (List.scanl (fun q op => applyRowOp op q) (applyRowOp op p) rest).head? =
          some (applyRowOp op p) := by cases rest <;> rfl
      rw [List.head?_map, hh] at hb
      cases hb
      exact (reachable_step op p hr).2
    · exact ih (applyRowOp op p) (reachable_step op p hr).1

/-- Witness for the amended C8: resolve then assign starting from "new". -/
theorem C8_status_monotone_from_new_witness :
    List.Chain' (fun a b => statusRank a ≤ statusRank b)
      ((List.scanl (fun q op => applyRowOp op q) samplePostNew
        [WorkflowOp.resolvePost "done", WorkflowOp.assignTeam "support" none]).map
          (fun q => q.status)) :=
  C8_status_monotone_from_new _ samplePostNew rfl

lemma run_once_skip (cfg : SchedulerConfig) (env : RunEnv) (state : Option ScraperStateRow)
    (db : List String)
    (h : (computeWindow cfg state env.now).1 ≥ (computeWindow cfg state env.now).2) :
    run_once cfg env state db = ⟨.skipped, state, db, []⟩ := by
  simp [run_once, h]

lemma run_once_failed (cfg : SchedulerConfig) (env : RunEnv) (state : Option ScraperStateRow)
    (db : List String) (e : String)
    (hw : ¬ (computeWindow cfg state env.now).1 ≥ (computeWindow cfg state env.now).2)
    (hf : env.fetch = .error e) :
    run_once cfg env state db = ⟨.failed e, state, db, []⟩ := by
  simp [run_once, scrape_window, hw, hf]

lemma run_once_ok (cfg : SchedulerConfig) (env : RunEnv) (state : Option ScraperStateRow)
    (db : List String) (tweets : List Tweet)
    (hw : ¬ (computeWindow cfg state env.now).1 ≥ (computeWindow cfg state env.now).2)
    (hf : env.fetch = .ok tweets) :
    run_once cfg env state db =
      ⟨.ok (processConversations env.convFetch (extractConvIds tweets) db
          ⟨tweets.length, 0, 0, 0⟩ []).stats,
        some (update_scraper_state state (computeWindow cfg state env.now).1
          (computeWindow cfg state env.now).2),
        (processConversations env.convFetch (extractConvIds tweets) db
          ⟨tweets.length, 0, 0, 0⟩ []).db,
        (processConversations env.convFetch (extractConvIds tweets) db
          ⟨tweets.length, 0, 0, 0⟩ []).log⟩ := by
  simp [run_once, scrape_window, hw, hf]

lemma computeWindow_snd_le (cfg : SchedulerConfig) (state : Option ScraperStateRow)
    (now : Int) : (computeWindow cfg state now).2 ≤ now := by
  simp only [computeWindow]
  split <;> omega

lemma runStep_cases (cfg : SchedulerConfig) (st : SchedState) (env : RunEnv) :
    (runStep cfg st env).1.checkpoint = st.checkpoint ∨
    ((runStep cfg st env).1.checkpoint =
        some (update_scraper_state st.checkpoint (computeWindow cfg st.checkpoint env.now).1
          (computeWindow cfg st.checkpoint env.now).2) ∧
      (computeWindow cfg st.checkpoint env.now).1 < (computeWindow cfg st.checkpoint env.now).2) := by
  by_cases hw : (computeWindow cfg st.checkpoint env.now).1 ≥
      (computeWindow cfg st.checkpoint env.now).2
  · left
    simp [runStep, run_once_skip cfg env st.checkpoint st.convDb hw]
  · cases hf : env.fetch with
    | error e =>
      left
      simp [runStep, run_once_failed cfg env st.checkpoint st.convDb e hw hf]
    | ok tweets =>
      right
      constructor
      · simp [runStep, run_once_ok cfg env st.checkpoint st.convDb tweets hw hf]
      · omega

lemma checkpointEndLE_refl (c : Option ScraperStateRow) : checkpointEndLE c c := by
  cases c <;> simp [checkpointEndLE]

lemma checkpointEndLE_step (cfg : SchedulerConfig) (st : SchedState) (env : RunEnv) :
    checkpointEndLE st.checkpoint (runStep cfg st env).1.checkpoint := by
  rcases runStep_cases cfg st env with h | ⟨h2, hlt⟩
  · rw [h]; exact checkpointEndLE_refl _
  · rw [h2]
    cases hc : st.checkpoint with
    | none => simp [checkpointEndLE]
    | some s =>
      rw [hc] at hlt
      have hws : (computeWindow cfg (some s) env.now).1 = s.last_window_end := rfl
      rw [hws] at hlt
      simp [checkpointEndLE, update_scraper_state]
      omega

lemma traceStates_head (cfg : SchedulerConfig) (envs : List RunEnv) (st : SchedState) :
    (traceStates cfg envs st).head? = some st := by
  cases envs <;> rfl

lemma chain_traceStates (cfg : SchedulerConfig) (envs : List RunEnv) :
    ∀ st, List.Chain' (fun a b => checkpointEndLE a.checkpoint b.checkpoint)
      (traceStates cfg envs st) := by
  induction envs with
  | nil => intro st; simp [traceStates]
  | cons e es ih =>
    intro st
    rw [traceStates, List.chain'_cons']
    refine ⟨?_, ih _⟩
    intro b hb
    rw [traceStates_head] at hb
    cases hb
    exact checkpointEndLE_step cfg st e

/-- Claim C1: along every sequence of runs, last_window_end is non-decreasing; a
successful run records as its window start exactly get_start_time of the prior
checkpoint (the prior last_window_end, or the configured epoch when no
checkpoint row exists) and as its window end the clamped end, which never
exceeds now and strictly exceeds the start; when the clamped window start is
greater than or equal to the window end the run is skipped and neither
checkpoint nor stored data is modified. -/
theorem C1_checkpoint_monotonicity :
    (∀ cfg envs st₀, List.Chain' (fun a b => checkpointEndLE a.checkpoint b.checkpoint)
        (traceStates cfg envs st₀))
    ∧ (∀ cfg (st st2 : SchedState) env stats log,
        runStep cfg st env = (st2, RunResult.ok stats, log) →
        st2.checkpoint = some (update_scraper_state st.checkpoint
            (get_start_time cfg st.checkpoint) (computeWindow cfg st.checkpoint env.now).2)
        ∧ get_start_time cfg st.checkpoint < (computeWindow cfg st.checkpoint env.now).2
        ∧ (computeWindow cfg st.checkpoint env.now).2 ≤ env.now)
    ∧ (∀ cfg (st : SchedState) env,
        (computeWindow cfg st.checkpoint env.now).1 ≥
            (computeWindow cfg st.checkpoint env.now).2 →
        runStep cfg st env = (st, RunResult.skipped, []))
    ∧ (∀ cfg s, get_start_time cfg (some s) = s.last_window_end)
    ∧ (∀ cfg, get_start_time cfg none = cfg.scraper_start_date) := by
  refine ⟨chain_traceStates, ?_, ?_, fun _ _ => rfl, fun _ => rfl⟩
  · intro cfg st st2 env stats log h
    by_cases hw : (computeWindow cfg st.checkpoint env.now).1 ≥
        (computeWindow cfg st.checkpoint env.now).2
    · rw [runStep, run_once_skip cfg env st.checkpoint st.convDb hw] at h
      simp at h
    · cases hf : env.fetch with
      | error e =>
        rw [runStep, run_once_failed cfg env st.checkpoint st.convDb e hw hf] at h
        simp at h
      | ok tweets =>
        rw [runStep, run_once_ok cfg env st.checkpoint st.convDb tweets hw hf] at h
        simp only [Prod.mk.injEq] at h
        obtain ⟨hst, _, _⟩ := h
        have hlt : (computeWindow cfg st.checkpoint env.now).1 <
            (computeWindow cfg st.checkpoint env.now).2 := by omega
        exact ⟨by rw [← hst]; rfl, hlt, computeWindow_snd_le cfg st.checkpoint env.now⟩
  · intro cfg st env hw
    rw [runStep, run_once_skip cfg env st.checkpoint st.convDb hw]

/-- Witness for C1: a concrete successful first run from an empty checkpoint with
window 30 and now = 30 records the window [0, 30) and last_window_end = 30. -/
theorem C1_checkpoint_monotonicity_witness :
    (⟨some ⟨0, 30, 1⟩, []⟩ : SchedState).checkpoint =
      some (update_scraper_state none (get_start_time ⟨30, 0⟩ none)
        (computeWindow ⟨30, 0⟩ none 30).2)
    ∧ get_start_time ⟨30, 0⟩ none < (computeWindow ⟨30, 0⟩ none 30).2 := by
  have h := C1_checkpoint_monotonicity.2.1 ⟨30, 0⟩ ⟨none, []⟩ ⟨some ⟨0, 30, 1⟩, []⟩
    { now := 30, fetch := Except.ok [], convFetch := fun _ => Except.error "x" }
    ⟨0, 0, 0, 0⟩ [] rfl
  exact ⟨h.1, h.2.1⟩

/-- Claim C2: an adapter-level exception during the window search aborts the run
with the checkpoint and stored conversations untouched, so the next invocation
recomputes the identical window; a per-conversation exception during enrichment
is recorded in the errors count and processing resumes with the remaining
conversation ids; and whenever the window search succeeds on a non-empty
window, the checkpoint is advanced to the processed window regardless of any
per-conversation failures. -/
theorem C2_failure_semantics :
    (∀ cfg env (st : SchedState) e, env.fetch = Except.error e →
        ¬ (computeWindow cfg st.checkpoint env.now).1 ≥
            (computeWindow cfg st.checkpoint env.now).2 →
        runStep cfg st env = (st, RunResult.failed e, [])
        ∧ computeWindow cfg (runStep cfg st env).1.checkpoint env.now =
            computeWindow cfg st.checkpoint env.now)
    ∧ (∀ (convFetch : String → Except String ConversationData) cid rest db stats log e,
        conversation_exists db cid = false → convFetch cid = Except.error e →
        processConversations convFetch (cid :: rest) db stats log =
          processConversations convFetch rest db
            { stats with errors := stats.errors + 1 } (log ++ [cid]))
    ∧ (∀ cfg env (st : SchedState) tweets, env.fetch = Except.ok tweets →
        ¬ (computeWindow cfg st.checkpoint env.now).1 ≥
            (computeWindow cfg st.checkpoint env.now).2 →
        ∃ r : ConvProcResult,
          runStep cfg st env =
            (⟨some (update_scraper_state st.checkpoint
                (computeWindow cfg st.checkpoint env.now).1
                (computeWindow cfg st.checkpoint env.now).2), r.db⟩,
              RunResult.ok r.stats, r.log)) := by
  refine ⟨?_, ?_, ?_⟩
  · intro cfg env st e hf hw
    have hstep : runStep cfg st env = (st, RunResult.failed e, []) := by
      rw [runStep, run_once_failed cfg env st.checkpoint st.convDb e hw hf]
    exact ⟨hstep, by rw [hstep]⟩
  · intro convFetch cid rest db stats log e hex hf
    rw [processConversations]
    rw [if_neg (by simp [hex]), hf]
  · intro cfg env st tweets hf hw
    exact ⟨_, by rw [runStep, run_once_ok cfg env st.checkpoint st.convDb tweets hw hf]⟩

/-- Witness for C2: a concrete failing fetch leaves the state untouched, and a
concrete failing conversation fetch is counted as an error while processing
continues. -/
theorem C2_failure_semantics_witness :
    runStep ⟨30, 0⟩ ⟨none, []⟩
      { now := 30, fetch := Except.error "boom", convFetch := fun _ => Except.error "x" } =
      (⟨none, []⟩, RunResult.failed "boom", [])
    ∧ processConversations (fun _ => Except.error "x") ["c1"] [] ⟨1, 0, 0, 0⟩ [] =
        processConversations (fun _ => Except.error "x") [] [] ⟨1, 0, 0, 1⟩ ["c1"] := by
  refine ⟨(C2_failure_semantics.1 ⟨30, 0⟩
      { now := 30, fetch := Except.error "boom", convFetch := fun _ => Except.error "x" }
      ⟨none, []⟩ "boom" rfl (by decide)).1, ?_⟩
  exact C2_failure_semantics.2.1 (fun _ => Except.error "x") "c1" [] [] ⟨1, 0, 0, 0⟩ [] "x"
    rfl rfl

lemma any_congr_mem {α : Type} (l : List α) (p q : α → Bool) (h : ∀ a ∈ l, p a = q a) :
    l.any p = l.any q := by
  induction l with
  | nil => rfl
  | cons a t ih =>
    rw [List.any_cons, List.any_cons, h a (List.mem_cons_self a t),
      ih (fun b hb => h b (List.mem_cons_of_mem a hb))]

lemma setClassified_id (r : RawRow) : (setClassified r).id = r.id := rfl

lemma setClassified_idem (r : RawRow) : setClassified (setClassified r) = setClassified r := rfl

lemma processBatch_raws (oracle : Nat → Option Classification) (ids : List Nat) :
    ∀ s : SystemState, ∃ f : RawRow → RawRow,
      (processClassifyBatch oracle ids s).raws = s.raws.map f
      ∧ (∀ r, f r = r ∨ f r = setClassified r)
      ∧ (∀ r, oracle r.id = none → f r = r)
      ∧ (∀ r, (f r).id = r.id) := by
  induction ids with
  | nil =>
    intro s
    exact ⟨fun r => r, by simp [processClassifyBatch], fun r => Or.inl rfl,
      fun _ _ => rfl, fun _ => rfl⟩
  | cons i rest ih =>
    intro s
    cases ho : oracle i with
    | none =>
      obtain ⟨f, hmap, hor, hnone, hid⟩ := ih s
      refine ⟨f, ?_, hor, hnone, hid⟩
      simp only [processClassifyBatch, ho]
      exact hmap
    | some c =>
      obtain ⟨f, hmap, hor, hnone, hid⟩ := ih (save_classification s i c)
      refine ⟨fun r => f (if r.id = i then setClassified r else r), ?_, ?_, ?_, ?_⟩
      · simp only [processClassifyBatch, ho]
        rw [hmap]
        show ((s.raws.map fun r => if r.id = i then setClassified r else r).map f) = _
        rw [List.map_map]
        rfl
      · intro r
        show f (if r.id = i then setClassified r else r) = r ∨
          f (if r.id = i then setClassified r else r) = setClassified r
        by_cases hri : r.id = i
        · rw [if_pos hri]
          rcases hor (setClassified r) with h | h
          · exact Or.inr h
          · exact Or.inr (by rw [h, setClassified_idem])
        · rw [if_neg hri]; exact hor r
      · intro r ho2
        show f (if r.id = i then setClassified r else r) = r
        have hri : r.id ≠ i := by
          intro he; rw [he, ho] at ho2; cases ho2
        rw [if_neg hri]; exact hnone r ho2
      · intro r
        show (f (if r.id = i then setClassified r else r)).id = r.id
        by_cases hri : r.id = i
        · rw [if_pos hri, hid (setClassified r)]; rfl
        · rw [if_neg hri]; exact hid r

lemma processBatch_posts (oracle : Nat → Option Classification) (ids : List Nat) :
    ∀ s : SystemState, ∃ extra : List PostRow,
      (processClassifyBatch oracle ids s).posts = s.posts ++ extra
      ∧ ∀ p ∈ extra, oracle p.raw_post_id ≠ none := by
  induction ids with
  | nil => intro s; exact ⟨[], by simp [processClassifyBatch], by simp⟩
  | cons i rest ih =>
    intro s
    cases ho : oracle i with
    | none =>
      obtain ⟨extra, hmap, hmem⟩ := ih s
      refine ⟨extra, ?_, hmem⟩
      simp only [processClassifyBatch, ho]
      exact hmap
    | some c =>
      obtain ⟨extra, hmap, hmem⟩ := ih (save_classification s i c)
      refine ⟨from_classification_result s.nextPostId i c :: extra, ?_, ?_⟩
      · simp only [processClassifyBatch, ho]
        rw [hmap]
        show (s.posts ++ [from_classification_result s.nextPostId i c]) ++ extra = _
        rw [List.append_assoc]
        rfl
      · intro p hp
        rcases List.mem_cons.mp hp with h | h
        · rw [h]
          show oracle i ≠ none
          rw [ho]
          exact fun hcon => Option.noConfusion hcon
        · exact hmem p h

lemma filter_map_sublist (f : RawRow → RawRow)
    (hf : ∀ r, f r = r ∨ f r = setClassified r) (l : List RawRow) :
    List.Sublist ((l.map f).filter (fun r => !r.is_classified))
      (l.filter (fun r => !r.is_classified)) := by
  induction l with
  | nil => simp
  | cons r t ih =>
    rw [List.map_cons, List.filter_cons, List.filter_cons]
    by_cases hk : (!(f r).is_classified) = true
    · have hfr : f r = r := by
        rcases hf r with h | h
        · exact h
        · rw [h] at hk; simp [setClassified] at hk
      rw [hfr] at hk ⊢
      rw [if_pos hk, if_pos hk]
      exact List.Sublist.cons₂ r ih
    · rw [if_neg hk]
      by_cases hr : (!r.is_classified) = true
      · rw [if_pos hr]; exact List.Sublist.cons r ih
      · rw [if_neg hr]; exact ih

lemma mem_take_of_sublist : ∀ {l l' : List RawRow}, List.Sublist l' l → l.Nodup →
    ∀ {x : RawRow} {n : Nat}, x ∈ l' → x ∈ l.take n → x ∈ l'.take n := by
  intro l l' h
  induction h with
  | slnil => intro _ x n hx _; cases hx
  | @cons l₁ l₂ a hsub ih =>
    intro hnd x n hx hxt
    obtain ⟨ha, hl2⟩ := List.nodup_cons.mp hnd
    cases n with
    | zero => simp at hxt
    | succ m =>
      rw [List.take_succ_cons] at hxt
      rcases List.mem_cons.mp hxt with hxa | hxm
      · exact absurd (hxa ▸ hsub.subset hx) ha
      · have hx' := ih hl2 hx hxm
        have he : (l₁.take (m + 1)).take m = l₁.take m := by
          rw [List.take_take, min_eq_left (Nat.le_succ m)]
        rw [← he] at hx'
        exact List.take_subset m (l₁.take (m + 1)) hx'
  | @cons₂ l₁ l₂ a hsub ih =>
    intro hnd x n hx hxt
    obtain ⟨ha, hl2⟩ := List.nodup_cons.mp hnd
    cases n with
    | zero => simp at hxt
    | succ m =>
      rw [List.take_succ_cons] at hxt ⊢
      by_cases hxa : x = a
      · exact List.mem_cons.mpr (Or.inl hxa)
      · have hx1 : x ∈ l₁ := by
          rcases List.mem_cons.mp hx with h | h
          · exact absurd h hxa
          · exact h
        have hxm : x ∈ l₂.take m := by
          rcases List.mem_cons.mp hxt with h | h
          · exact absurd h hxa
          · exact h
        exact List.mem_cons.mpr (Or.inr (ih hl2 hx1 hxm))

/-- Claim C6: a raw post in the batch whose classifier call fails is left with
is_classified = false, gets no ClassifiedPost row persisted, and is returned
again by get_unclassified_posts after the run, so it is retried on the next
invocation. -/
theorem C6_classification_retry (s : SystemState) (oracle : Nat → Option Classification)
    (limit : Nat) (id : Nat)
    (hnd : (s.raws.map (fun r => r.id)).Nodup)
    (hid : id ∈ (get_unclassified_posts s limit).map (fun r => r.id))
    (hfail : oracle id = none) :
    rawClassifiedB (classify_from_database oracle limit s) id = false
    ∧ postCountFor (classify_from_database oracle limit s) id = postCountFor s id
    ∧ id ∈ (get_unclassified_posts (classify_from_database oracle limit s) limit).map
        (fun r => r.id) := by
  obtain ⟨r, hrt, hrid⟩ := List.mem_map.mp hid
  have hrf : r ∈ s.raws.filter (fun r => !r.is_classified) :=
    List.take_subset limit _ hrt
  have hrmem : r ∈ s.raws := (List.mem_filter.mp hrf).1
  have hrunc : (!r.is_classified) = true := (List.mem_filter.mp hrf).2
  obtain ⟨f, hmap, hor, hnone, hidf⟩ :=
    processBatch_raws oracle ((get_unclassified_posts s limit).map (fun r => r.id)) s
  have hsraws : (classify_from_database oracle limit s).raws = s.raws.map f := hmap
  have hfr : f r = r := hnone r (by rw [hrid]; exact hfail)
  refine ⟨?_, ?_, ?_⟩
  · simp only [rawClassifiedB]
    rw [hsraws, List.any_map]
    apply List.any_eq_false.mpr
    intro r0 hr0
    simp only [Function.comp, Bool.and_eq_true, decide_eq_true_eq, not_and]
    intro hfid
    have hr0id : r0.id = id := (hidf r0) ▸ hfid
    have hfr0 : f r0 = r0 := hnone r0 (by rw [hr0id]; exact hfail)
    have hreq : r0 = r := List.inj_on_of_nodup_map hnd hr0 hrmem (by rw [hr0id, hrid])
    rw [hfr0, hreq]
    have hfalse : r.is_classified = false := by simpa using hrunc
    simp [hfalse]
  · obtain ⟨extra, hposts, hmem⟩ :=
      processBatch_posts oracle ((get_unclassified_posts s limit).map (fun r => r.id)) s
    have hposts2 : (classify_from_database oracle limit s).posts = s.posts ++ extra := hposts
    simp only [postCountFor]
    rw [hposts2, List.countP_append]
    have hz : extra.countP (fun p => p.raw_post_id = id) = 0 := by
      apply List.countP_eq_zero.mpr
      intro p hp
      simp only [decide_eq_true_eq]
      intro he
      exact (hmem p hp) (he ▸ hfail)
    rw [hz]
    omega
  · have hsub := filter_map_sublist f hor s.raws
    have hnodupf : (s.raws.filter (fun r => !r.is_classified)).Nodup :=
      (List.Nodup.of_map _ hnd).filter _
    have hrnew : r ∈ (s.raws.map f).filter (fun r => !r.is_classified) := by
      apply List.mem_filter.mpr
      exact ⟨List.mem_map.mpr ⟨r, hrmem, hfr⟩, hrunc⟩
    have htake := mem_take_of_sublist hsub hnodupf hrnew hrt
    apply List.mem_map.mpr
    refine ⟨r, ?_, hrid⟩
    show r ∈ get_unclassified_posts (classify_from_database oracle limit s) limit
    simp only [get_unclassified_posts]
    rw [hsraws]
    exact htake

/-- Witness for C6: one unclassified raw post and an always-failing classifier. -/
theorem C6_classification_retry_witness :
    rawClassifiedB (classify_from_database (fun _ => none) 1
      ⟨[⟨1, "t", false⟩], [], 2, 1⟩) 1 = false
    ∧ postCountFor (classify_from_database (fun _ => none) 1
        ⟨[⟨1, "t", false⟩], [], 2, 1⟩) 1 = postCountFor ⟨[⟨1, "t", false⟩], [], 2, 1⟩ 1
    ∧ 1 ∈ (get_unclassified_posts (classify_from_database (fun _ => none) 1
        ⟨[⟨1, "t", false⟩], [], 2, 1⟩) 1).map (fun r => r.id) :=
  C6_classification_retry ⟨[⟨1, "t", false⟩], [], 2, 1⟩ (fun _ => none) 1 1
    (by decide) (by decide) rfl

lemma applyRowOp_raw_post_id (op : WorkflowOp) (p : PostRow) :
    (applyRowOp op p).raw_post_id = p.raw_post_id := by
  cases op <;> rfl

lemma countP_updateFirstPost (posts : List PostRow) (pid : Nat) (g : PostRow → PostRow)
    (hg : ∀ p, (g p).raw_post_id = p.raw_post_id) (id : Nat) :
    (updateFirstPost posts pid g).countP (fun p => p.raw_post_id = id) =
      posts.countP (fun p => p.raw_post_id = id) := by
  induction posts with
  | nil => rfl
  | cons p rest ih =>
    rw [updateFirstPost]
    by_cases hp : p.id = pid
    · rw [if_pos hp, List.countP_cons, List.countP_cons, hg]
    · rw [if_neg hp, List.countP_cons, List.countP_cons, ih]

lemma rawClassifiedB_mono_op (s : SystemState) (op : SysOp) (id : Nat)
    (h : rawClassifiedB s id = true) : rawClassifiedB (applySysOp s op) id = true := by
  cases op with
  | ingest t =>
    simp only [rawClassifiedB, applySysOp, List.any_cons] at h ⊢
    rw [h]
    simp
  | workflow pid wop => exact h
  | classifyRun oracle m =>
    obtain ⟨f, hmap, hor, _, hidf⟩ :=
      processBatch_raws oracle ((get_unclassified_posts s m).map (fun r => r.id)) s
    show rawClassifiedB (classify_from_database oracle m s) id = true
    simp only [rawClassifiedB] at h ⊢
    have hmap2 : (classify_from_database oracle m s).raws = s.raws.map f := hmap
    rw [hmap2, List.any_map]
    rw [List.any_eq_true] at h ⊢
    obtain ⟨r, hr, hpred⟩ := h
    refine ⟨r, hr, ?_⟩
    simp only [Function.comp, Bool.and_eq_true, decide_eq_true_eq] at hpred ⊢
    obtain ⟨hid1, hid2⟩ := hpred
    refine ⟨by rw [hidf r]; exact hid1, ?_⟩
    rcases hor r with hh | hh
    · rw [hh]; exact hid2
    · rw [hh]; rfl

lemma rawClassifiedB_mono (ops : List SysOp) : ∀ s id, rawClassifiedB s id = true →
    rawClassifiedB (applySysOps s ops) id = true := by
  induction ops with
  | nil => intro s id h; exact h
  | cons op rest ih => intro s id h; exact ih _ id (rawClassifiedB_mono_op s op id h)

lemma save_classification_ids (s : SystemState) (i : Nat) (c : Classification) :
    (save_classification s i c).raws.map (fun r => r.id) = s.raws.map (fun r => r.id) := by
  simp only [save_classification]
  rw [List.map_map]
  apply List.map_congr_left
  intro r0 _
  show (if r0.id = i then ({ r0 with is_classified := true } : RawRow) else r0).id = r0.id
  by_cases h : r0.id = i
  · rw [if_pos h]
  · rw [if_neg h]

lemma rawClassifiedB_save_other (s : SystemState) (i j : Nat) (c : Classification)
    (hij : j ≠ i) :
    rawClassifiedB (save_classification s i c) j = rawClassifiedB s j := by
  simp only [rawClassifiedB, save_classification]
  rw [List.any_map]
  apply any_congr_mem
  intro r0 _
  show (decide ((if r0.id = i then ({ r0 with is_classified := true } : RawRow) else r0).id = j)
      && (if r0.id = i then ({ r0 with is_classified := true } : RawRow) else r0).is_classified)
    = (decide (r0.id = j) && r0.is_classified)
  by_cases h : r0.id = i
  · rw [if_pos h]
    show (decide (r0.id = j) && true) = (decide (r0.id = j) && r0.is_classified)
    have hne : r0.id ≠ j := by rw [h]; exact fun he => hij he.symm
    simp [hne]
  · rw [if_neg h]

lemma processBatch_inv (oracle : Nat → Option Classification) (ids : List Nat) :
    ∀ s : SystemState,
      (s.raws.map (fun r => r.id)).Nodup →
      (∀ r ∈ s.raws, r.id < s.nextRawId) →
      (∀ j, postCountFor s j = if rawClassifiedB s j then 1 else 0) →
      ids.Nodup →
      (∀ i ∈ ids, ∃ r ∈ s.raws, r.id = i ∧ r.is_classified = false) →
      ((processClassifyBatch oracle ids s).raws.map (fun r => r.id)).Nodup
      ∧ (∀ r ∈ (processClassifyBatch oracle ids s).raws,
          r.id < (processClassifyBatch oracle ids s).nextRawId)
      ∧ (∀ j, postCountFor (processClassifyBatch oracle ids s) j =
          if rawClassifiedB (processClassifyBatch oracle ids s) j then 1 else 0) := by
  induction ids with
  | nil => intro s h1 h2 h3 _ _; exact ⟨h1, h2, h3⟩
  | cons i rest ih =>
    intro s h1 h2 h3 hnd hmem
    obtain ⟨hi_not, hnd_rest⟩ := List.nodup_cons.mp hnd
    cases ho : oracle i with
    | none =>
      have hstep : processClassifyBatch oracle (i :: rest) s =
          processClassifyBatch oracle rest s := by
        simp [processClassifyBatch, ho]
      rw [hstep]
      exact ih s h1 h2 h3 hnd_rest
        (fun i2 hi2 => hmem i2 (List.mem_cons_of_mem i hi2))
    | some c =>
      have hstep : processClassifyBatch oracle (i :: rest) s =
          processClassifyBatch oracle rest (save_classification s i c) := by
        simp [processClassifyBatch, ho]
      rw [hstep]
      obtain ⟨r, hrmem, hrid, hrunc⟩ := hmem i (List.mem_cons_self i rest)
      have hids := save_classification_ids s i c
      apply ih (save_classification s i c)
      · rw [hids]; exact h1
      · intro r0 hr0
        obtain ⟨r1, hr1, hr1e⟩ := List.mem_map.mp hr0
        have hre : r0.id = r1.id := by
          rw [← hr1e]
          show (if r1.id = i then ({ r1 with is_classified := true } : RawRow) else r1).id = r1.id
          by_cases h : r1.id = i
          · rw [if_pos h]
          · rw [if_neg h]
        show r0.id < s.nextRawId
        rw [hre]; exact h2 r1 hr1
      · intro j
        have hposts : (save_classification s i c).posts =
            s.posts ++ [from_classification_result s.nextPostId i c] := rfl
        simp only [postCountFor]
        rw [hposts, List.countP_append]
        by_cases hj : j = i
        · rw [hj]
          have hCB_pre : rawClassifiedB s i = false := by
            apply List.any_eq_false.mpr
            intro r0 hr0
            simp only [Bool.and_eq_true, decide_eq_true_eq, not_and]
            intro hr0id
            have : r0 = r := List.inj_on_of_nodup_map h1 hr0 hrmem (by rw [hr0id, hrid])
            rw [this, hrunc]
            simp
          have hcount_pre : postCountFor s i = 0 := by
            rw [h3 i, hCB_pre]; rfl
          have hCB_post : rawClassifiedB (save_classification s i c) i = true := by
            simp only [rawClassifiedB, save_classification]
            apply List.any_eq_true.mpr
            refine ⟨{ r with is_classified := true }, ?_, ?_⟩
            · apply List.mem_map.mpr
              exact ⟨r, hrmem, by rw [if_pos hrid]⟩
            · simp [hrid]
          rw [hCB_post]
          simp only [postCountFor] at hcount_pre
          rw [hcount_pre]
          show 0 + List.countP _ [from_classification_result s.nextPostId i c] = 1
          simp [List.countP_cons]
          rfl
        · have hCB := rawClassifiedB_save_other s i j c hj
          rw [hCB]
          have hz : List.countP (fun p => p.raw_post_id = j)
              [from_classification_result s.nextPostId i c] = 0 := by
            apply List.countP_eq_zero.mpr
            intro p hp
            rcases List.mem_singleton.mp hp with h
            rw [h]
            simp only [decide_eq_true_eq]
            show ¬ i = j
            exact fun he => hj he.symm
          rw [hz]
          have := h3 j
          simp only [postCountFor] at this
          rw [this]
          omega
      · exact hnd_rest
      · intro i2 hi2
        obtain ⟨r1, hr1, hr1id, hr1unc⟩ := hmem i2 (List.mem_cons_of_mem i hi2)
        have hne : i2 ≠ i := fun he => hi_not (he ▸ hi2)
        have hr1i : r1.id ≠ i := by rw [hr1id]; exact hne
        refine ⟨r1, ?_, hr1id, hr1unc⟩
        show r1 ∈ (save_classification s i c).raws
        simp only [save_classification]
        apply List.mem_map.mpr
        exact ⟨r1, hr1, by rw [if_neg hr1i]⟩

lemma sysWF_step (s : SystemState) (op : SysOp) (h : sysWF s) : sysWF (applySysOp s op) := by
  obtain ⟨h1, h2, h3⟩ := h
  cases op with
  | ingest t =>
    refine ⟨?_, ?_, ?_⟩
    · simp only [applySysOp, List.map_cons]
      apply List.nodup_cons.mpr
      refine ⟨?_, h1⟩
      intro hmem
      obtain ⟨r, hr, hre⟩ := List.mem_map.mp hmem
      have := h2 r hr
      omega
    · intro r hr
      show r.id < s.nextRawId + 1
      rcases List.mem_cons.mp hr with he | he
      · rw [he]
        show s.nextRawId < s.nextRawId + 1
        omega
      · have := h2 r he; omega
    · intro j
      have hpost : postCountFor (applySysOp s (SysOp.ingest t)) j = postCountFor s j := rfl
      have hcb : rawClassifiedB (applySysOp s (SysOp.ingest t)) j = rawClassifiedB s j := by
        simp only [rawClassifiedB, applySysOp, List.any_cons]
        simp
      rw [hpost, hcb]
      exact h3 j
  | workflow pid wop =>
    refine ⟨h1, h2, ?_⟩
    intro j
    have hcb : rawClassifiedB (applySysOp s (SysOp.workflow pid wop)) j =
        rawClassifiedB s j := rfl
    have hpost : postCountFor (applySysOp s (SysOp.workflow pid wop)) j = postCountFor s j :=
      countP_updateFirstPost s.posts pid (applyRowOp wop) (applyRowOp_raw_post_id wop) j
    rw [hpost, hcb]
    exact h3 j
  | classifyRun oracle m =>
    have hsub : List.Sublist ((get_unclassified_posts s m).map (fun r => r.id))
        (s.raws.map (fun r => r.id)) := by
      apply List.Sublist.map
      exact (List.take_sublist m _).trans (List.filter_sublist s.raws)
    have hbatchnd : ((get_unclassified_posts s m).map (fun r => r.id)).Nodup :=
      h1.sublist hsub
    have hbatchmem : ∀ i ∈ (get_unclassified_posts s m).map (fun r => r.id),
        ∃ r ∈ s.raws, r.id = i ∧ r.is_classified = false := by
      intro i hi
      obtain ⟨r, hrt, hre⟩ := List.mem_map.mp hi
      have hrf := List.take_subset m _ hrt
      refine ⟨r, (List.mem_filter.mp hrf).1, hre, ?_⟩
      have := (List.mem_filter.mp hrf).2
      simpa using this
    exact processBatch_inv oracle _ s h1 h2 h3 hbatchnd hbatchmem

lemma sysWF_apply (ops : List SysOp) : ∀ s, sysWF s → sysWF (applySysOps s ops) := by
  induction ops with
  | nil => intro s h; exact h
  | cons op rest ih => intro s h; exact ih _ (sysWF_step s op h)

lemma sysWF_init : sysWF initState := by
  refine ⟨by simp [initState], by simp [initState], ?_⟩
  intro j
  simp [postCountFor, rawClassifiedB, initState]

/-- Claim C7: starting from the empty database, along every sequence of
operations (ingestion, classification runs, workflow transitions) each raw post
has exactly one classified-post row exactly when its is_classified flag is set
and none otherwise; the flag never reverts to false once set (so it flips
false-to-true at most once); and save_classification is the sole pairing point:
it appends exactly one classified post for the raw post id and sets exactly
that raw post's flag. -/
theorem C7_exactly_one_classification :
    (∀ ops id, postCountFor (applySysOps initState ops) id =
        if rawClassifiedB (applySysOps initState ops) id then 1 else 0)
    ∧ (∀ ops more id, rawClassifiedB (applySysOps initState ops) id = true →
        rawClassifiedB (applySysOps (applySysOps initState ops) more) id = true)
    ∧ (∀ s raw_post_id c, (save_classification s raw_post_id c).posts =
        s.posts ++ [from_classification_result s.nextPostId raw_post_id c]
      ∧ (save_classification s raw_post_id c).raws =
          s.raws.map (fun r => if r.id = raw_post_id then setClassified r else r)) := by
  refine ⟨?_, ?_, fun s rp c => ⟨rfl, rfl⟩⟩
  · intro ops id
    exact (sysWF_apply ops initState sysWF_init).2.2 id
  · intro ops more id h
    exact rawClassifiedB_mono more _ id h

/-- Witness for C7: ingest one post, classify it successfully, then resolve it —
the raw post has exactly one classified row and its flag stays true. -/
theorem C7_exactly_one_classification_witness :
    postCountFor (applySysOps initState
      [SysOp.ingest "hello",
        SysOp.classifyRun (fun _ => some ⟨false, some "Praise", some 5, some 5, some 5⟩) 10]) 1 = 1
    ∧ rawClassifiedB (applySysOps (applySysOps initState
        [SysOp.ingest "hello",
          SysOp.classifyRun (fun _ => some ⟨false, some "Praise", some 5, some 5, some 5⟩) 10])
        [SysOp.workflow 1 (WorkflowOp.resolvePost "done")]) 1 = true := by
  have h1 := C7_exactly_one_classification.1
    [SysOp.ingest "hello",
      SysOp.classifyRun (fun _ => some ⟨false, some "Praise", some 5, some 5, some 5⟩) 10] 1
  have h2 := C7_exactly_one_classification.2.1
    [SysOp.ingest "hello",
      SysOp.classifyRun (fun _ => some ⟨false, some "Praise", some 5, some 5, some 5⟩) 10]
    [SysOp.workflow 1 (WorkflowOp.resolvePost "done")] 1 (by decide)
  exact ⟨h1.trans (by decide), h2⟩

lemma dedupFirstAux_spec : ∀ (l seen : List String),
    (dedupFirstAux l seen).Nodup ∧ ∀ x ∈ dedupFirstAux l seen, x ∉ seen ∧ x ∈ l := by
  intro l
  induction l with
  | nil => intro seen; exact ⟨List.nodup_nil, by simp [dedupFirstAux]⟩
  | cons x xs ih =>
    intro seen
    by_cases hx : seen.contains x = true
    · have hstep : dedupFirstAux (x :: xs) seen = dedupFirstAux xs seen := by
        rw [dedupFirstAux, if_pos hx]
      rw [hstep]
      obtain ⟨h1, h2⟩ := ih seen
      exact ⟨h1, fun y hy => ⟨(h2 y hy).1, List.mem_cons_of_mem x (h2 y hy).2⟩⟩
    · have hstep : dedupFirstAux (x :: xs) seen = x :: dedupFirstAux xs (x :: seen) := by
        rw [dedupFirstAux, if_neg hx]
      rw [hstep]
      obtain ⟨h1, h2⟩ := ih (x :: seen)
      have hxs : x ∉ seen := by simpa using hx
      refine ⟨?_, ?_⟩
      · apply List.nodup_cons.mpr
        refine ⟨?_, h1⟩
        intro hmem
        exact ((h2 x hmem).1) (List.mem_cons_self x seen)
      · intro y hy
        rcases List.mem_cons.mp hy with hm | hm
        · exact ⟨hm ▸ hxs, hm ▸ List.mem_cons_self x xs⟩
        · exact ⟨fun hsy => (h2 y hm).1 (List.mem_cons_of_mem x hsy),
            List.mem_cons_of_mem x (h2 y hm).2⟩

lemma extractConvIds_nodup (tweets : List Tweet) : (extractConvIds tweets).Nodup :=
  (dedupFirstAux_spec _ []).1

lemma extractConvIds_mem_ne (tweets : List Tweet) :
    ∀ x ∈ extractConvIds tweets, x ≠ "" := by
  intro x hx
  have hmem := ((dedupFirstAux_spec (tweets.filterMap tweetConvId) []).2 x hx).2
  obtain ⟨t, _, hts⟩ := List.mem_filterMap.mp hmem
  simp only [tweetConvId] at hts
  cases hc : t.conversation_id with
  | none => rw [hc] at hts; cases hts
  | some c =>
    rw [hc] at hts
    have hts2 : (if c = "" then none else some c : Option String) = some x := hts
    by_cases hce : c = ""
    · rw [if_pos hce] at hts2; cases hts2
    · rw [if_neg hce] at hts2
      have hcx : c = x := Option.some.inj hts2
      exact fun hxe => hce (hcx.trans hxe)

lemma save_conversation_db (db : List String) (cd : ConversationData) :
    (save_conversation db cd).2 = db ∨
    ∃ cid, conv_id_of cd = some cid ∧ cid ≠ "" ∧ cid ∉ db ∧
      (save_conversation db cd).2 = db ++ [cid] ∧ (save_conversation db cd).1 = some cid := by
  cases hc : conv_id_of cd with
  | none => left; simp [save_conversation, hc]
  | some cid =>
    by_cases h1 : cid = ""
    · left; simp [save_conversation, hc, h1]
    · by_cases h2 : conversation_exists db cid = true
      · left; simp [save_conversation, hc, h1, h2]
      · right
        refine ⟨cid, rfl, h1, by simpa [conversation_exists] using h2, ?_, ?_⟩
        · simp [save_conversation, hc, h1, h2]
        · simp [save_conversation, hc, h1, h2]

lemma save_conversation_spec (db : List String) (cd : ConversationData) :
    (∀ x ∈ db, x ∈ (save_conversation db cd).2)
    ∧ (db.Nodup → (save_conversation db cd).2.Nodup) := by
  rcases save_conversation_db db cd with hdb | ⟨cid0, _, _, hnotin0, hdb2, _⟩
  · rw [hdb]; exact ⟨fun x h => h, fun h => h⟩
  · rw [hdb2]
    constructor
    · intro x hx; exact List.mem_append.mpr (Or.inl hx)
    · intro hnd
      simp [List.nodup_append, hnd, hnotin0]

lemma processConversations_spec (convFetch : String → Except String ConversationData) :
    ∀ (ids db : List String) (stats : ScrapeStats) (log : List String),
      (∀ x ∈ db, x ∈ (processConversations convFetch ids db stats log).db)
      ∧ (db.Nodup → (processConversations convFetch ids db stats log).db.Nodup)
      ∧ (∀ cid, cid ∈ db → cid ∉ log →
          cid ∉ (processConversations convFetch ids db stats log).log) := by
  intro ids
  induction ids with
  | nil =>
    intro db stats log
    exact ⟨fun x h => h, fun h => h, fun cid _ hl => hl⟩
  | cons h rest ih =>
    intro db stats log
    by_cases hex : conversation_exists db h = true
    · have hstep : processConversations convFetch (h :: rest) db stats log =
          processConversations convFetch rest db
            { stats with duplicates_skipped := stats.duplicates_skipped + 1 } log := by
        simp [processConversations, hex]
      rw [hstep]
      exact ih db _ log
    · have hh : h ∉ db := by simpa [conversation_exists] using hex
      cases hf : convFetch h with
      | error e =>
        have hstep : processConversations convFetch (h :: rest) db stats log =
            processConversations convFetch rest db
              { stats with errors := stats.errors + 1 } (log ++ [h]) := by
          simp [processConversations, hex, hf]
        rw [hstep]
        obtain ⟨g1, g2, g3⟩ := ih db _ (log ++ [h])
        refine ⟨g1, g2, ?_⟩
        intro cid hcdb hclog
        apply g3 cid hcdb
        intro hmem
        rcases List.mem_append.mp hmem with hm | hm
        · exact hclog hm
        · exact hh (List.mem_singleton.mp hm ▸ hcdb)
      | ok cd =>
        obtain ⟨hsub, hnd⟩ := save_conversation_spec db cd
        cases hsv : save_conversation db cd with
        | mk fst snd =>
          rw [hsv] at hsub hnd
          have hnext : ∀ stats2,
              (∀ x ∈ db, x ∈ (processConversations convFetch rest snd stats2 (log ++ [h])).db)
              ∧ (db.Nodup → (processConversations convFetch rest snd stats2 (log ++ [h])).db.Nodup)
              ∧ (∀ cid, cid ∈ db → cid ∉ log →
                  cid ∉ (processConversations convFetch rest snd stats2 (log ++ [h])).log) := by
            intro stats2
            obtain ⟨g1, g2, g3⟩ := ih snd stats2 (log ++ [h])
            refine ⟨fun x hx => g1 x (hsub x hx), fun hd => g2 (hnd hd), ?_⟩
            intro cid hcdb hclog
            apply g3 cid (hsub cid hcdb)
            intro hmem
            rcases List.mem_append.mp hmem with hm | hm
            · exact hclog hm
            · exact hh (List.mem_singleton.mp hm ▸ hcdb)
          cases fst with
          | some x =>
            have hstep : processConversations convFetch (h :: rest) db stats log =
                processConversations convFetch rest snd
                  { stats with conversations_saved := stats.conversations_saved + 1 }
                  (log ++ [h]) := by
              simp [processConversations, hex, hf, hsv]
            rw [hstep]
            exact hnext _
          | none =>
            have hstep : processConversations convFetch (h :: rest) db stats log =
                processConversations convFetch rest snd
                  { stats with duplicates_skipped := stats.duplicates_skipped + 1 }
                  (log ++ [h]) := by
              simp [processConversations, hex, hf, hsv]
            rw [hstep]
            exact hnext _

lemma processConversations_count (convFetch : String → Except String ConversationData)
    (hfaith : ∀ cid, cid ≠ "" → ∃ cd, convFetch cid = Except.ok cd ∧ conv_id_of cd = some cid) :
    ∀ (ids db : List String) (stats : ScrapeStats) (log : List String),
      ids.Nodup → (∀ x ∈ ids, x ≠ "") → db.Nodup →
      (∀ cid, log.count cid ≤ 1) → (∀ cid ∈ log, cid ∈ db) →
      (∀ cid, (processConversations convFetch ids db stats log).log.count cid ≤ 1)
      ∧ (∀ cid ∈ (processConversations convFetch ids db stats log).log,
          cid ∈ (processConversations convFetch ids db stats log).db) := by
  intro ids
  induction ids with
  | nil =>
    intro db stats log _ _ _ hcnt hmem
    exact ⟨hcnt, hmem⟩
  | cons h rest ih =>
    intro db stats log hnd hel hdnd hcnt hmem
    obtain ⟨hh_not, hnd_rest⟩ := List.nodup_cons.mp hnd
    have hel_rest : ∀ x ∈ rest, x ≠ "" := fun x hx => hel x (List.mem_cons_of_mem h hx)
    by_cases hex : conversation_exists db h = true
    · have hstep : processConversations convFetch (h :: rest) db stats log =
          processConversations convFetch rest db
            { stats with duplicates_skipped := stats.duplicates_skipped + 1 } log := by
        simp [processConversations, hex]
      rw [hstep]
      exact ih db _ log hnd_rest hel_rest hdnd hcnt hmem
    · have hh_ne : h ≠ "" := hel h (List.mem_cons_self h rest)
      obtain ⟨cd, hf, hcid⟩ := hfaith h hh_ne
      have hh_notdb : h ∉ db := by simpa [conversation_exists] using hex
      have hsv : save_conversation db cd = (some h, db ++ [h]) := by
        simp [save_conversation, hcid, hh_ne, hex]
      have hstep : processConversations convFetch (h :: rest) db stats log =
          processConversations convFetch rest (db ++ [h])
            { stats with conversations_saved := stats.conversations_saved + 1 }
            (log ++ [h]) := by
        simp [processConversations, hex, hf, hsv]
      rw [hstep]
      apply ih (db ++ [h]) _ (log ++ [h]) hnd_rest hel_rest
      · simp [List.nodup_append, hdnd, hh_notdb]
      · intro cid
        rw [List.count_append]
        by_cases hch : cid = h
        · have hz : log.count cid = 0 :=
            List.count_eq_zero.mpr (fun hc => hh_notdb (hch ▸ hmem cid hc))
          have h1 : [h].count cid ≤ 1 := by
            rcases hch with rfl
            simp
          omega
        · have hz : [h].count cid = 0 := List.count_eq_zero.mpr
            (fun hc => hch (List.mem_singleton.mp hc))
          have := hcnt cid
          omega
      · intro cid hc
        rcases List.mem_append.mp hc with hm | hm
        · exact List.mem_append.mpr (Or.inl (hmem cid hm))
        · exact List.mem_append.mpr (Or.inr hm)

lemma runStep_shape (cfg : SchedulerConfig) (st : SchedState) (env : RunEnv) :
    ((runStep cfg st env).1.convDb = st.convDb ∧ (runStep cfg st env).2.2 = []) ∨
    (∃ tweets, env.fetch = Except.ok tweets ∧
      (runStep cfg st env).1.convDb =
        (processConversations env.convFetch (extractConvIds tweets) st.convDb
          ⟨tweets.length, 0, 0, 0⟩ []).db ∧
      (runStep cfg st env).2.2 =
        (processConversations env.convFetch (extractConvIds tweets) st.convDb
          ⟨tweets.length, 0, 0, 0⟩ []).log) := by
  by_cases hw : (computeWindow cfg st.checkpoint env.now).1 ≥
      (computeWindow cfg st.checkpoint env.now).2
  · left; simp [runStep, run_once_skip cfg env st.checkpoint st.convDb hw]
  · cases hf : env.fetch with
    | error e =>
      left; simp [runStep, run_once_failed cfg env st.checkpoint st.convDb e hw hf]
    | ok tweets =>
      right
      refine ⟨tweets, rfl, ?_, ?_⟩ <;>
        simp [runStep, run_once_ok cfg env st.checkpoint st.convDb tweets hw hf]

lemma runLogs_not_from_db (cfg : SchedulerConfig) :
    ∀ (envs : List RunEnv) (st : SchedState) (cid : String), cid ∈ st.convDb →
      cid ∉ runLogs cfg envs st := by
  intro envs
  induction envs with
  | nil => intro st cid _ hmem; simp [runLogs] at hmem
  | cons e es ih =>
    intro st cid hc hmem
    rw [runLogs] at hmem
    rcases List.mem_append.mp hmem with hm | hm
    · rcases runStep_shape cfg st e with ⟨_, hlog⟩ | ⟨tweets, _, _, hlog⟩
      · rw [hlog] at hm; cases hm
      · rw [hlog] at hm
        obtain ⟨_, _, g3⟩ := processConversations_spec e.convFetch
          (extractConvIds tweets) st.convDb ⟨tweets.length, 0, 0, 0⟩ []
        exact g3 cid hc (by simp) hm
    · rcases runStep_shape cfg st e with ⟨hdb, _⟩ | ⟨tweets, _, hdb, _⟩
      · exact ih _ cid (by rw [hdb]; exact hc) hm
      · obtain ⟨g1, _, _⟩ := processConversations_spec e.convFetch
          (extractConvIds tweets) st.convDb ⟨tweets.length, 0, 0, 0⟩ []
        exact ih _ cid (by rw [hdb]; exact g1 cid hc) hm

lemma runMany_nodup (cfg : SchedulerConfig) :
    ∀ (envs : List RunEnv) (st : SchedState), st.convDb.Nodup →
      (runMany cfg envs st).convDb.Nodup := by
  intro envs
  induction envs with
  | nil => intro st h; exact h
  | cons e es ih =>
    intro st h
    rw [runMany]
    rcases runStep_shape cfg st e with ⟨hdb, _⟩ | ⟨tweets, _, hdb, _⟩
    · exact ih _ (by rw [hdb]; exact h)
    · obtain ⟨_, g2, _⟩ := processConversations_spec e.convFetch
        (extractConvIds tweets) st.convDb ⟨tweets.length, 0, 0, 0⟩ []
      exact ih _ (by rw [hdb]; exact g2 h)

lemma runLogs_count_le_one (cfg : SchedulerConfig) :
    ∀ (envs : List RunEnv) (st : SchedState), st.convDb.Nodup →
      (∀ env ∈ envs, ∀ cid, cid ≠ "" →
        ∃ cd, env.convFetch cid = Except.ok cd ∧ conv_id_of cd = some cid) →
      ∀ cid, (runLogs cfg envs st).count cid ≤ 1 := by
  intro envs
  induction envs with
  | nil => intro st _ _ cid; simp [runLogs]
  | cons e es ih =>
    intro st hdnd hfaith cid
    have hfaith_e := hfaith e (List.mem_cons_self e es)
    have hfaith_es : ∀ env ∈ es, ∀ cid, cid ≠ "" →
        ∃ cd, env.convFetch cid = Except.ok cd ∧ conv_id_of cd = some cid :=
      fun env henv => hfaith env (List.mem_cons_of_mem e henv)
    rw [runLogs, List.count_append]
    rcases runStep_shape cfg st e with ⟨hdb, hlog⟩ | ⟨tweets, _, hdb, hlog⟩
    · rw [hlog]
      have hrest := ih _ (by rw [hdb]; exact hdnd) hfaith_es cid
      simpa using hrest
    · rw [hlog]
      obtain ⟨hcnt1, hmem1⟩ := processConversations_count e.convFetch hfaith_e
        (extractConvIds tweets) st.convDb ⟨tweets.length, 0, 0, 0⟩ []
        (extractConvIds_nodup tweets) (extractConvIds_mem_ne tweets) hdnd
        (by simp) (by simp)
      obtain ⟨_, g2, _⟩ := processConversations_spec e.convFetch
        (extractConvIds tweets) st.convDb ⟨tweets.length, 0, 0, 0⟩ []
      have hnd2 : (runStep cfg st e).1.convDb.Nodup := by rw [hdb]; exact g2 hdnd
      by_cases hcl : cid ∈ (processConversations e.convFetch (extractConvIds tweets)
          st.convDb ⟨tweets.length, 0, 0, 0⟩ []).log
      · have h1 := hcnt1 cid
        have hdbmem : cid ∈ (runStep cfg st e).1.convDb := by
          rw [hdb]; exact hmem1 cid hcl
        have h0 : (runLogs cfg es (runStep cfg st e).1).count cid = 0 :=
          List.count_eq_zero.mpr (runLogs_not_from_db cfg es _ cid hdbmem)
        omega
      · have h1 : (processConversations e.convFetch (extractConvIds tweets)
            st.convDb ⟨tweets.length, 0, 0, 0⟩ []).log.count cid = 0 :=
          List.count_eq_zero.mpr hcl
        have h2 := ih _ hnd2 hfaith_es cid
        omega

/-- Claim C3 counterexample: the claim fails as stated — when the detail fetch of
a conversation fails in one run (a caught per-conversation error), the
conversation is not stored, and a later run over a fresh window invokes
get_conversation_parsed for the same conversation id a second time, so a
conversation is not fetched at most once across all runs. -/
theorem C3_counterexample_refetch_after_error :
    runLogs ⟨30, 0⟩
      [{ now := 30, fetch := Except.ok [⟨some "C"⟩],
          convFetch := fun _ => Except.error "boom" },
        { now := 60, fetch := Except.ok [⟨some "C"⟩],
          convFetch := fun cid => Except.ok ⟨some cid, none⟩ }]
      ⟨none, []⟩ = ["C", "C"]
    ∧ ¬ (runLogs ⟨30, 0⟩
        [{ now := 30, fetch := Except.ok [⟨some "C"⟩],
            convFetch := fun _ => Except.error "boom" },
          { now := 60, fetch := Except.ok [⟨some "C"⟩],
            convFetch := fun cid => Except.ok ⟨some cid, none⟩ }]
        ⟨none, []⟩).count "C" ≤ 1 := by
  constructor
  · rfl
  · decide

/-- Claim C3 (amended): a conversation id already in storage is never passed to
get_conversation_parsed in any later run; every conversation is stored at most
once across all runs (the conversations table stays duplicate-free); and when
every per-conversation detail fetch succeeds and returns a payload carrying the
requested conversation id, each conversation is fetched at most once across all
runs — only a failed (or id-less) fetch can cause a refetch in a later run. -/
theorem C3_dedup_before_fetch (cfg : SchedulerConfig) (envs : List RunEnv)
    (st : SchedState) :
    (∀ cid ∈ st.convDb, cid ∉ runLogs cfg envs st)
    ∧ (st.convDb.Nodup → (runMany cfg envs st).convDb.Nodup)
    ∧ (st.convDb.Nodup →
        (∀ env ∈ envs, ∀ cid, cid ≠ "" →
          ∃ cd, env.convFetch cid = Except.ok cd ∧ conv_id_of cd = some cid) →
        ∀ cid, (runLogs cfg envs st).count cid ≤ 1) :=
  ⟨fun cid hc => runLogs_not_from_db cfg envs st cid hc,
    fun h => runMany_nodup cfg envs st h,
    fun h hf => runLogs_count_le_one cfg envs st h hf⟩

/-- Witness for the amended C3: a pre-stored conversation "D" is never refetched
and a fresh conversation "C" is fetched exactly once over two runs with a
well-behaved detail fetch. -/
theorem C3_dedup_before_fetch_witness :
    "D" ∉ runLogs ⟨30, 0⟩
      [{ now := 30, fetch := Except.ok [⟨some "C"⟩, ⟨some "D"⟩],
          convFetch := fun cid => Except.ok ⟨some cid, none⟩ },
        { now := 60, fetch := Except.ok [⟨some "C"⟩, ⟨some "D"⟩],
          convFetch := fun cid => Except.ok ⟨some cid, none⟩ }]
      ⟨none, ["D"]⟩
    ∧ (runLogs ⟨30, 0⟩
        [{ now := 30, fetch := Except.ok [⟨some "C"⟩, ⟨some "D"⟩],
            convFetch := fun cid => Except.ok ⟨some cid, none⟩ },
          { now := 60, fetch := Except.ok [⟨some "C"⟩, ⟨some "D"⟩],
            convFetch := fun cid => Except.ok ⟨some cid, none⟩ }]
        ⟨none, ["D"]⟩).count "C" ≤ 1 := by
  have h := C3_dedup_before_fetch ⟨30, 0⟩
    [{ now := 30, fetch := Except.ok [⟨some "C"⟩, ⟨some "D"⟩],
        convFetch := fun cid => Except.ok ⟨some cid, none⟩ },
      { now := 60, fetch := Except.ok [⟨some "C"⟩, ⟨some "D"⟩],
          convFetch := fun cid => Except.ok ⟨some cid, none⟩ }]
    ⟨none, ["D"]⟩
  refine ⟨h.1 "D" (by simp), h.2.2 (by simp) ?_ "C"⟩
  intro env henv cid hcne
  refine ⟨⟨some cid, none⟩, ?_, by simp [conv_id_of, pyOrStrOpt, hcne]⟩
  rcases List.mem_cons.mp henv with he | he
  · subst he; rfl
  · have he2 := List.mem_singleton.mp he
    subst he2; rfl

end Buzz
